import Mathlib

/-!
Verification model of `mindnlp/modules/embeddings/fasttext_embedding.py`.

The module loads a pretrained FastText word-vector table, builds a
vocabulary with special tokens, offers an id-to-row lookup, and persists
the table to a two-file on-disk format (a JSON hyperparameter blob and a
text vector file with a fixed-width 30-character header placeholder that
is overwritten in place).

Modelling conventions:
* File contents are lists of characters (`Chars`).
* A `float32` value is modelled by its printed decimal representation
  (the string produced by Python `str` on the value).  Stringifying a
  value is the identity on this representation and re-parsing extracts a
  maximal numeral prefix, so the "precision lost by stringifying floats
  and re-parsing them" is the identity map of the model.  Numerals are
  restricted to the decimal shapes an optional sign, an integer part and
  an optional fractional part, which covers the printed forms of floats
  that the claims exercise.
* Fallible code returns `Except Err`; Python exceptions (ValueError on
  argument validation and line unpacking, numpy ragged-array errors,
  index errors, assertion errors) become the constructors of `Err`.
* External collaborators (network download, unzip, mindspore `Vocab`,
  `ops.gather`, the base class dropout) are modelled where the spec
  describes them; each such definition carries a doc comment saying so.
-/

namespace FTE

abbrev Chars := List Char

/-- Errors of the load/save/lookup pipeline: Python `ValueError` raised
by argument validation, `ValueError` from unpacking a malformed line,
numpy's ragged-array error at `np.array(...).astype`, index errors
(tensor `shape[1]` on a 1-D array, `ops.gather` out of range), the
reshape size error, and the `assert` on missing files. -/
inductive Err where
  | valueError (msg : String)
  | parseError
  | raggedError
  | indexError
  | reshapeError
  | assertError (msg : String)
deriving DecidableEq

/-- Whitespace characters as recognised by Python `str.split()` and by
the text reader of `np.fromstring`. -/
def isWS (c : Char) : Bool := c = ' ' || c = '\t' || c = '\n' || c = '\r'

/-- Helper of `scanNum`: consume an optional leading sign character. -/
def scanSign : Chars → Chars × Chars
  | [] => ([], [])
  | c :: cs => if c = '-' || c = '+' then ([c], cs) else ([], c :: cs)

/-- The `strtod`-style scanner used by the text mode of `np.fromstring`:
return the maximal decimal-numeral prefix of the input and the rest.  A
numeral is an optional sign, then digits with an optional point and
fractional digits; at least one digit is required, otherwise nothing is
consumed and the first component is empty. -/
def scanNum (s : Chars) : Chars × Chars :=
  let p := scanSign s
  let ip := p.2.takeWhile Char.isDigit
  let s2 := p.2.dropWhile Char.isDigit
  match s2 with
  | '.' :: s3 =>
    let fp := s3.takeWhile Char.isDigit
    let s4 := s3.dropWhile Char.isDigit
    if ip.isEmpty && fp.isEmpty then ([], s)
    else (p.1 ++ ip ++ '.' :: fp, s4)
  | _ => if ip.isEmpty then ([], s) else (p.1 ++ ip, s2)

/-- A string is a full numeral when the scanner consumes all of it.
These are the printed forms of float values in the model. -/
def isNumeral (v : Chars) : Bool :=
  !v.isEmpty && decide (scanNum v = (v, []))

/-- Fuel-driven loop of `np.fromstring(s, dtype=np.float32, sep=' ')` in
text mode: repeatedly skip whitespace and scan one numeral; stop at the
end of the input, at unparseable data, or when a scanned numeral is
followed by a non-whitespace character (numpy stops there and keeps the
values read so far, issuing only a warning, not an error). -/
def fromstringF : Nat → Chars → List Chars
  | 0, _ => []
  | fuel + 1, s =>
    let s0 := s.dropWhile isWS
    let p := scanNum s0
    if p.1.isEmpty then []
    else
      match p.2 with
      | [] => [p.1]
      | c :: r => if isWS c then p.1 :: fromstringF fuel (c :: r) else [p.1]

/-- The list of numeral strings `np.fromstring` reads from `s`. -/
def fromstring (s : Chars) : List Chars := fromstringF (s.length + 1) s

/-- Python `line.split(maxsplit=1)` followed by unpacking into exactly
two variables: skip leading whitespace, take the first whitespace-free
word, consume the separating whitespace run, and require a nonempty
remainder; `none` models the ValueError raised when the line does not
split into two parts. -/
def pySplit1 (s : Chars) : Option (Chars × Chars) :=
  let s1 := s.dropWhile isWS
  let w := s1.takeWhile (fun c => !isWS c)
  let r := (s1.dropWhile (fun c => !isWS c)).dropWhile isWS
  if w.isEmpty || r.isEmpty then none else some (w, r)

/-- Python `' '.join` over a list of strings. -/
def joinSp : List Chars → Chars
  | [] => []
  | [v] => v
  | v :: w :: r => v ++ ' ' :: joinSp (w :: r)

/-- Split off the first line of a text, keeping its terminating newline,
as Python file iteration does. -/
def breakNl : Chars → Chars × Chars
  | [] => ([], [])
  | c :: cs =>
    if c = '\n' then ([c], cs)
    else
      let p := breakNl cs
      (c :: p.1, p.2)

/-- Fuel-driven splitting of a text into its lines, each keeping its
terminating newline, the final line possibly unterminated; an empty
final segment is not a line, matching Python file iteration. -/
def pyLinesF : Nat → Chars → List Chars
  | 0, _ => []
  | _ + 1, [] => []
  | fuel + 1, c :: cs =>
    let p := breakNl (c :: cs)
    p.1 :: pyLinesF fuel p.2

/-- The lines of a text under Python file iteration. -/
def pyLines (s : Chars) : List Chars := pyLinesF (s.length + 1) s

/-- Effectful map over a list that stops at the first error, matching a
Python `for` loop whose body may raise. -/
def mapE (f : α → Except Err β) : List α → Except Err (List β)
  | [] => .ok []
  | a :: as =>
    match f a with
    | .error e => .error e
    | .ok b =>
      match mapE f as with
      | .error e => .error e
      | .ok bs => .ok (b :: bs)

/-- One iteration of the reading loop shared by `from_pretrained` and
`load`: `word, embedding = line.split(maxsplit=1)` then
`np.fromstring(embedding, dtype=np.float32, sep=' ')`. -/
def parseLine (line : Chars) : Except Err (Chars × List Chars) :=
  match pySplit1 line with
  | none => .error .parseError
  | some (w, rest) => .ok (w, fromstring rest)

/-- The reading loop of `from_pretrained` (lines 112-116) and `load`
(lines 207-211): skip the first line (`islice(file, 1, None)`), parse
every remaining line, and collect the tokens and the parsed vectors. -/
def readVectors (content : Chars) : Except Err (List Chars × List (List Chars)) :=
  match mapE parseLine ((pyLines content).drop 1) with
  | .error e => .error e
  | .ok prs => .ok (prs.map Prod.fst, prs.map Prod.snd)

/-- Whether all rows have the same length, the condition under which
`np.array(embeddings).astype(np.float32)` produces a 2-D array instead
of raising on a ragged input. -/
def sameLens : List (List Chars) → Bool
  | [] => true
  | r :: rs => rs.all (fun q => q.length == r.length)

/-- Model of `np.array(embeddings).astype(np.float32)` on a list of
rows: a 2-D array when the rows are uniform, an error when ragged. -/
def npStack (rows : List (List Chars)) : Except Err (List (List Chars)) :=
  if sameLens rows then .ok rows else .error .raggedError

/-- Modelled from the spec: the external `mindspore.dataset.text.utils.Vocab`
is an ordered bijection between tokens and contiguous ids from 0; it is
modelled by its token list in id order, `tokens[i]` being the token of
id `i`, and `vocab.keys()` enumerating the tokens in id order. -/
structure Vocab where
  tokens : List Chars
deriving DecidableEq

/-- Modelled from the spec: `Vocab.from_list(word_list, special_tokens,
special_first)` prepends the special tokens (in the order given) when
`special_first` is true and appends them otherwise, ids following list
order. -/
def Vocab.fromList (wordList specialTokens : List Chars) (specialFirst : Bool) : Vocab :=
  if specialFirst then ⟨specialTokens ++ wordList⟩ else ⟨wordList ++ specialTokens⟩

/-- The hyperparameter blob written to `fasttext_hyper.json` and passed
back to the initializer on `load`: `dropout`, `requires_grad`,
`train_state`, plus the passthrough `kwargs`.  The external JSON
encoder/decoder pair round-trips it and is modelled as the identity. -/
structure Hyper where
  dropout : Chars
  requiresGrad : Bool
  trainState : Bool
  kwargs : List (String × String)
deriving DecidableEq

/-- The `Fasttext` embedding instance: the stored vocabulary, the dense
table (`embed`, one row per id), the shape fields recorded by
`__init__` (`vocab_size = init_embed.shape[0]`,
`_embed_dim = init_embed.shape[1]`), and the hyperparameters. -/
structure Fasttext where
  wordVocab : Vocab
  embed : List (List Chars)
  vocabSize : Nat
  embedDim : Nat
  requiresGrad : Bool
  dropoutP : Chars
  trainState : Bool
  kwargs : List (String × String)
deriving DecidableEq

/-- `Fasttext.__init__` (lines 47-72): record the vocabulary, the table
and its shape, and the hyperparameters.  `init_embed.shape[1]` raises an
IndexError when the stacked array is one-dimensional, which happens
exactly when the row list is empty. -/
def Fasttext.init (vocab : Vocab) (initEmbed : List (List Chars))
    (requiresGrad : Bool) (dropout : Chars) (trainState : Bool)
    (kwargs : List (String × String)) : Except Err Fasttext :=
  match initEmbed with
  | [] => .error .indexError
  | r :: _ =>
    .ok { wordVocab := vocab
          embed := initEmbed
          vocabSize := initEmbed.length
          embedDim := r.length
          requiresGrad := requiresGrad
          dropoutP := dropout
          trainState := trainState
          kwargs := kwargs }

/-- The printed form of the Python float `0.5`, the dropout value that
`from_pretrained` hard-codes. -/
def floatHalf : Chars := ['0', '.', '5']

/-- The supported pretrained source names, the keys of `Fasttext.urls`. -/
def urlsKeys : List String := ["1M", "1M-subword"]

/-- The supported dimensions, `Fasttext.dims`. -/
def dimsList : List Nat := [300]

/-- The all-zero synthetic row `np.zeros((dims,), np.float32)`; the
float32 zero prints as `0.0`. -/
def zerosRow (dims : Nat) : List Chars := List.replicate dims ['0', '.', '0']

/-- Observable I/O of `from_pretrained` after validation: the download
(`cache_file`/`unzip`) and the read of the vector file. -/
inductive Ev where
  | download
  | readFile
deriving DecidableEq

/-- Core of `from_pretrained` (lines 110-127), after validation and
download: read the vector file, insert the synthetic random row and the
zero row at the front (`insert(0, ...)`, `insert(1, ...)`) or the back
(`append`), build the vocabulary with the special tokens, stack the
rows, and construct the instance with `requires_grad=True` and
`dropout=0.5`.  `randRow` is the vector drawn by `np.random.rand(dims)`,
supplied as an input since the RNG is external. -/
def fromPretrainedCore (dims : Nat) (specialTokens : List Chars) (specialFirst : Bool)
    (content : Chars) (randRow : List Chars) : Except Err (Fasttext × Vocab) :=
  match readVectors content with
  | .error e => .error e
  | .ok (toks, rows) =>
    let embeddings :=
      if specialFirst then randRow :: zerosRow dims :: rows
      else rows ++ [randRow, zerosRow dims]
    match npStack embeddings with
    | .error e => .error e
    | .ok table =>
      let vocab := Vocab.fromList toks specialTokens specialFirst
      match Fasttext.init vocab table true floatHalf true [] with
      | .error e => .error e
      | .ok inst => .ok (inst, vocab)

/-- `Fasttext.from_pretrained` (lines 74-127): validate the source name
against `urls` and the dimension against `dims`, raising a ValueError
before any filesystem or network I/O; on success the returned event
trace records the download and the file read that then happen.  The
decompressed vector file content is an input, standing for what the
download collaborator put in the cache. -/
def fromPretrained (name : String) (dims : Nat) (specialTokens : List Chars)
    (specialFirst : Bool) (content : Chars) (randRow : List Chars) :
    List Ev × Except Err (Fasttext × Vocab) :=
  if name ∈ urlsKeys then
    if dims ∈ dimsList then
      ([Ev.download, Ev.readFile], fromPretrainedCore dims specialTokens specialFirst content randRow)
    else ([], .error (.valueError "The argument dims must in the supported dims list."))
  else ([], .error (.valueError "The argument name must in the supported urls."))

/-- Name of the persisted hyperparameter file. -/
def JSON_FILENAME : String := "fasttext_hyper.json"

/-- Name of the persisted vector file. -/
def EMBED_FILENAME : String := "fasttext.txt"

/-- The save folder on disk, holding the two optional files; `none`
models an absent file. -/
structure SavedFolder where
  jsonFile : Option Hyper
  embedFile : Option Chars
deriving DecidableEq

/-- The character of a decimal digit value. -/
def digitChar (d : Nat) : Char := Char.ofNat (48 + d)

/-- Fuel-driven decimal printing, most significant digit first. -/
def natStrF : Nat → Nat → Chars → Chars
  | 0, _, acc => acc
  | fuel + 1, n, acc =>
    if n < 10 then digitChar (n % 10) :: acc
    else natStrF fuel (n / 10) (digitChar (n % 10) :: acc)

/-- Python `str` on a nonnegative integer: its decimal digits. -/
def natStr (n : Nat) : Chars := natStrF (n + 1) n []

/-- The header text `f'{nums} {dims}'` written over the placeholder. -/
def headerOf (nums dims : Nat) : Chars := natStr nums ++ ' ' :: natStr dims

/-- The effect of `file.seek(0)` followed by `file.write(new)` on an
already written text: the first `new.length` characters are replaced. -/
def overwriteAt0 (content new : Chars) : Chars := new ++ content.drop new.length

/-- One data line of the vector file: the token, a space, the
space-joined stringified row values, and a newline. -/
def dataLineOf (tok : Chars) (row : List Chars) : Chars :=
  tok ++ ' ' :: joinSp row ++ ['\n']

/-- `Fasttext.save` (lines 146-184): write the hyperparameter blob,
then the vector file as a 30-space placeholder line followed by one line
per vocabulary entry in id order (`vocab_list[i]` and `embed_list[i]`
for `i in range(nums)`; an index past either list raises), and finally
seek to offset 0 and overwrite the placeholder with `f'{nums} {dims}'`. -/
def Fasttext.save (m : Fasttext) : Except Err SavedFolder :=
  match mapE (fun i =>
      match m.wordVocab.tokens[i]?, m.embed[i]? with
      | some t, some r => Except.ok (dataLineOf t r)
      | _, _ => Except.error Err.indexError) (List.range m.vocabSize) with
  | .error e => .error e
  | .ok lines =>
    let content := overwriteAt0 (List.replicate 30 ' ' ++ '\n' :: lines.flatten)
      (headerOf m.vocabSize m.embedDim)
    .ok { jsonFile := some ⟨m.dropoutP, m.requiresGrad, m.trainState, m.kwargs⟩
          embedFile := some content }

/-- The save directory `os.path.join(root, 'embeddings', 'Fasttext',
'save', foldername)`. -/
def folderPath (root foldername : String) : String :=
  root ++ "/embeddings/Fasttext/save/" ++ foldername

/-- The assertion message `f'{name} not found in {folder}.'`. -/
def missingMsg (name folder : String) : String :=
  name ++ " not found in " ++ folder ++ "."

/-- `Fasttext.load` (lines 186-218): assert that both files exist (the
JSON file is checked first), read the hyperparameter blob, re-read the
vector file with the shared reading loop, rebuild the vocabulary from
the tokens in insertion order with no special tokens re-injected, stack
the rows, and construct the instance with the reloaded blob. -/
def Fasttext.load (f : SavedFolder) (folder : String) : Except Err Fasttext :=
  match f.jsonFile with
  | none => .error (.assertError (missingMsg JSON_FILENAME folder))
  | some hyper =>
    match f.embedFile with
    | none => .error (.assertError (missingMsg EMBED_FILENAME folder))
    | some content =>
      match readVectors content with
      | .error e => .error e
      | .ok (toks, rows) =>
        match npStack rows with
        | .error e => .error e
        | .ok table =>
          Fasttext.init (Vocab.fromList toks [] false) table
            hyper.requiresGrad hyper.dropout hyper.trainState hyper.kwargs

/-- An n-dimensional array of scalars of type `α`: its shape and its
row-major flat data. -/
structure NDArr (α : Type) where
  shape : List Nat
  data : List α
deriving DecidableEq

/-- Modelled from the spec: `ops.gather(embed, flat_ids, 0)` selects the
table row of each id; an id outside `[0, vocab_size)` is a fatal index
error that propagates, never a clamp or a wrap. -/
def opsGather (table : List (List Chars)) (ids : List Nat) : Except Err (List (List Chars)) :=
  mapE (fun i =>
    match table[i]? with
    | some r => Except.ok r
    | none => Except.error Err.indexError) ids

/-- `ops.reshape(x, shape)`: succeeds exactly when the element count
matches the target shape. -/
def opsReshape (data : List α) (shape : List Nat) : Except Err (NDArr α) :=
  if shape.prod = data.length then .ok ⟨shape, data⟩ else .error .reshapeError

/-- Modelled from the spec: the stochastic dropout transform of the base
class, delegated to the framework and out of scope; on the value path it
is modelled as the identity, the claims only address the output before
this transform and the propagation of errors raised before it. -/
def dropoutTransform (x : NDArr Chars) : NDArr Chars := x

/-- `Fasttext.construct` (lines 129-144) before the final dropout:
append the embedding dimension to the id shape, flatten the ids, gather
the rows, and reshape to the output shape. -/
def Fasttext.constructPre (m : Fasttext) (ids : NDArr Nat) : Except Err (NDArr Chars) :=
  match opsGather m.embed ids.data with
  | .error e => .error e
  | .ok rows => opsReshape rows.flatten (ids.shape ++ [m.embedDim])

/-- `Fasttext.construct`: the gathered and reshaped table rows with the
dropout transform applied, errors propagating to the caller. -/
def Fasttext.construct (m : Fasttext) (ids : NDArr Nat) : Except Err (NDArr Chars) :=
  match m.constructPre ids with
  | .error e => .error e
  | .ok out => .ok (dropoutTransform out)

/-- Decidable equality for results, used to evaluate the pipeline on
concrete inputs. -/
instance {ε α : Type} [DecidableEq ε] [DecidableEq α] : DecidableEq (Except ε α) :=
  fun x y =>
    match x, y with
    | .error a, .error b =>
      if h : a = b then .isTrue (congrArg Except.error h)
      else .isFalse (fun hh => h (by injection hh))
    | .error _, .ok _ => .isFalse (fun hh => Except.noConfusion hh)
    | .ok _, .error _ => .isFalse (fun hh => Except.noConfusion hh)
    | .ok a, .ok b =>
      if h : a = b then .isTrue (congrArg Except.ok h)
      else .isFalse (fun hh => h (by injection hh))

/-- The round-trip property claimed for save/load: saving and reloading
succeeds and preserves `vocab_size`, `embed_dim`, and the table rows up
to stringify-and-reparse, which is the identity of the value model. -/
def roundTripPreserves (m : Fasttext) (folder : String) : Prop :=
  ∃ sf m2, m.save = .ok sf ∧ Fasttext.load sf folder = .ok m2 ∧
    m2.vocabSize = m.vocabSize ∧ m2.embedDim = m.embedDim ∧ m2.embed = m.embed


/-! ### Concrete inputs for counterexamples and witnesses -/

/-- An instance whose single token holds a space: tokens with whitespace
are representable in a vocabulary, and its saved line `a b 0.5` re-reads
as token `a` with an empty vector. -/
def instC1cx : Fasttext :=
  { wordVocab := ⟨[['a', ' ', 'b']]⟩, embed := [[['0', '.', '5']]],
    vocabSize := 1, embedDim := 1, requiresGrad := true, dropoutP := floatHalf,
    trainState := true, kwargs := [] }

/-- A well-formed two-token instance with whitespace-free tokens, used
as a round-trip witness input. -/
def instC1w : Fasttext :=
  { wordVocab := ⟨[['c', 'a', 't'], ['d', 'o', 'g']]⟩,
    embed := [[['0', '.', '1'], ['0', '.', '2', '5']], [['3'], ['-', '4', '.', '5']]],
    vocabSize := 2, embedDim := 2, requiresGrad := true, dropoutP := floatHalf,
    trainState := true, kwargs := [] }


/-- A vector file holding only its (skipped) header line. -/
def hdrOnly : Chars := ['h', '\n']

/-- A concrete 300-entry random vector, standing for one draw of
`np.random.rand(300)`. -/
def rRow300 : List Chars := List.replicate 300 floatHalf

/-- The instance `from_pretrained` builds from a header-only file with
special tokens `p`, `u` and a 300-entry random row: two rows, the random
one and the zero one. -/
def instPre : Fasttext :=
  { wordVocab := ⟨[['p'], ['u']]⟩, embed := [rRow300, zerosRow 300],
    vocabSize := 2, embedDim := 300, requiresGrad := true, dropoutP := floatHalf,
    trainState := true, kwargs := [] }

/-- The vocabulary of `instPre`. -/
def vocabPre : Vocab := ⟨[['p'], ['u']]⟩

/-- A vector file with a header line and one 300-entry data line for the
token `cat`, every value printed as `1`. -/
def oneTokContent : Chars :=
  'h' :: '\n' :: ('c' :: 'a' :: 't' :: ' ' :: joinSp (List.replicate 300 [('1' : Char)])) ++ ['\n']

/-- The instance built from `oneTokContent` with `special_first = true`. -/
def instOneTok : Fasttext :=
  { wordVocab := ⟨[['p'], ['u'], ['c', 'a', 't']]⟩,
    embed := [rRow300, zerosRow 300, List.replicate 300 [('1' : Char)]],
    vocabSize := 3, embedDim := 300, requiresGrad := true, dropoutP := floatHalf,
    trainState := true, kwargs := [] }

/-- The vocabulary of `instOneTok`. -/
def vocabOneTok : Vocab := ⟨[['p'], ['u'], ['c', 'a', 't']]⟩

/-- The instance built from a header-only file with the default special
tokens and `special_first = true`: row 0 is the random row and row 1 the
zero row, while `<pad>` has id 0 and `<unk>` id 1. -/
def instC3cx : Fasttext :=
  { wordVocab := ⟨["<pad>".data, "<unk>".data]⟩, embed := [rRow300, zerosRow 300],
    vocabSize := 2, embedDim := 300, requiresGrad := true, dropoutP := floatHalf,
    trainState := true, kwargs := [] }

/-- The hyperparameter blob used for concrete load inputs. -/
def hyperW : Hyper := ⟨floatHalf, true, true, []⟩

/-- A vector file whose second data line carries a trailing non-numeric
field `junk` after the right number of floats. -/
def c7content : Chars := "h\ncat 0.1 0.2\ndog 0.3 0.4 junk\n".data

/-- The instance `load` builds from `c7content`: the junk field is
silently dropped. -/
def instC7cx : Fasttext :=
  { wordVocab := ⟨[['c', 'a', 't'], ['d', 'o', 'g']]⟩,
    embed := [[['0', '.', '1'], ['0', '.', '2']], [['0', '.', '3'], ['0', '.', '4']]],
    vocabSize := 2, embedDim := 2, requiresGrad := true, dropoutP := floatHalf,
    trainState := true, kwargs := [] }

/-- A vector file whose only data line has no second field. -/
def c7badContent : Chars := "h\ntok\n".data

/-- A vector file whose two data lines parse to rows of different
lengths. -/
def c7raggedContent : Chars := "h\na 1\nb 1 2\n".data

/-! ### Supporting lemmas -/

set_option maxRecDepth 1000000

/-- Appending past a block on which `p` holds, with a boundary element
on which it fails, splits `takeWhile` and `dropWhile` at the boundary. -/
theorem takeWhile_append_eq {α : Type} (p : α → Bool) (l r : List α)
    (hl : ∀ c ∈ l, p c = true) (hr : ∀ c, r.head? = some c → p c = false) :
    (l ++ r).takeWhile p = l ∧ (l ++ r).dropWhile p = r := by
  induction l with
  | nil =>
    simp only [List.nil_append]
    cases r with
    | nil => simp [List.takeWhile, List.dropWhile]
    | cons c r2 =>
      have hc : p c = false := hr c rfl
      simp [List.takeWhile, List.dropWhile, hc]
  | cons a l ih =>
    have ha : p a = true := hl a (by simp)
    have ihh := ih (fun c hc => hl c (by simp [hc]))
    simp [List.takeWhile, List.dropWhile, ha, ihh.1, ihh.2]

/-- `scanSign` splits off the sign independently of what follows the
first character. -/
theorem scanSign_append (v r : Chars) (h : v ≠ []) :
    scanSign (v ++ r) = ((scanSign v).1, (scanSign v).2 ++ r) := by
  cases v with
  | nil => exact absurd rfl h
  | cons c cs =>
    by_cases hc : c = '-' ∨ c = '+'
    · have hc2 : (c = '-' || c = '+') = true := by
        rcases hc with h1 | h1 <;> simp [h1]
      simp [scanSign, hc2]
    · have hc2 : (c = '-' || c = '+') = false := by
        simp only [Bool.or_eq_false_iff, decide_eq_false_iff_not]
        exact ⟨fun h1 => hc (Or.inl h1), fun h1 => hc (Or.inr h1)⟩
      simp [scanSign, hc2]

/-- `scanSign` decomposes its input into the sign and the rest. -/
theorem scanSign_eq (v : Chars) : v = (scanSign v).1 ++ (scanSign v).2 := by
  cases v with
  | nil => simp [scanSign]
  | cons c cs =>
    by_cases hc : (c = '-' || c = '+') = true
    · simp [scanSign, hc]
    · simp [scanSign, Bool.eq_false_iff.mpr hc, eq_false_of_ne_true hc]

/-- A full numeral scans to itself even when followed by further text,
provided the first following character is whitespace: the scanner stops
exactly at the boundary. -/
theorem scanNum_stable (v r : Chars) (hv : isNumeral v = true)
    (hr : ∀ c, r.head? = some c → isWS c = true) :
    scanNum (v ++ r) = (v, r) := by
  have hne : v ≠ [] := by
    intro h
    rw [h] at hv
    simp [isNumeral] at hv
  have hsc : scanNum v = (v, []) := by
    have h2 := hv
    unfold isNumeral at h2
    simp only [Bool.and_eq_true, decide_eq_true_eq] at h2
    exact h2.2
  have hrd : ∀ c, r.head? = some c → Char.isDigit c = false := by
    intro c hc
    have hw := hr c hc
    revert hw
    unfold isWS
    intro hw
    rcases Bool.or_eq_true_iff.mp hw with hw1 | hw1
    · rcases Bool.or_eq_true_iff.mp hw1 with hw2 | hw2
      · rcases Bool.or_eq_true_iff.mp hw2 with hw3 | hw3 <;>
          (simp only [decide_eq_true_eq] at hw3; rw [hw3]; rfl)
      · simp only [decide_eq_true_eq] at hw2; rw [hw2]; rfl
    · simp only [decide_eq_true_eq] at hw1; rw [hw1]; rfl
  have hrdot : ∀ c, r.head? = some c → c ≠ '.' := by
    intro c hc hdot
    have hw := hr c hc
    rw [hdot] at hw
    simp [isWS] at hw
  have hs1 := scanSign_eq v
  have hs2 := scanSign_append v r hne
  unfold scanNum at hsc ⊢
  rw [hs2]
  simp only at hsc ⊢
  set sgn := (scanSign v).1 with hsgn
  set s1 := (scanSign v).2 with hs1d
  have hip : s1.takeWhile Char.isDigit ++ s1.dropWhile Char.isDigit = s1 :=
    List.takeWhile_append_dropWhile Char.isDigit s1
  set ip := s1.takeWhile Char.isDigit with hipd
  set s2 := s1.dropWhile Char.isDigit with hs2d
  have hipdig : ∀ c ∈ ip, Char.isDigit c = true := fun c hc => List.mem_takeWhile_imp hc
  clear_value sgn s1 ip s2
  split at hsc
  next u s3 =>
    split at hsc
    next hcond =>
      injection hsc with h1 h2
      exact absurd h1.symm hne
    next hcond =>
      injection hsc with hveq hs4
      have hfp : List.takeWhile Char.isDigit s3 = s3 := by
        have h5 := List.takeWhile_append_dropWhile Char.isDigit s3
        rw [hs4, List.append_nil] at h5
        exact h5
      have hs3dig : ∀ c ∈ s3, Char.isDigit c = true := by
        intro c hc
        rw [← hfp] at hc
        exact List.mem_takeWhile_imp hc
      have hs1e : s1 ++ r = ip ++ ('.' :: (s3 ++ r)) := by
        rw [← hip]
        simp
      rw [hs1e]
      have htw := takeWhile_append_eq Char.isDigit ip ('.' :: (s3 ++ r)) hipdig
        (by intro c hc; simp only [List.head?] at hc; cases hc; rfl)
      rw [htw.1, htw.2]
      have htw2 := takeWhile_append_eq Char.isDigit s3 r hs3dig hrd
      rw [hfp] at hcond hveq
      split
      next s3c hq =>
        injection hq with hq1 hq2
        rw [← hq2, htw2.1, htw2.2]
        rw [if_neg hcond, hveq]
      next hx =>
        exact (hx (s3 ++ r) rfl).elim
  next hnd =>
    split at hsc
    next hip0 =>
      injection hsc with h1 h2
      exact absurd h1.symm hne
    next hip0 =>
      injection hsc with hveq hs20
      have hs1ip : s1 = ip := by rw [← hip, hs20, List.append_nil]
      have htw := takeWhile_append_eq Char.isDigit ip r hipdig hrd
      rw [hs1ip, htw.1, htw.2]
      split
      next s3b =>
        exact absurd rfl (hrdot '.' rfl)
      next hnd2 =>
        rw [if_neg hip0, hveq]


/-- A whitespace character is not a digit. -/
theorem ws_not_digit (c : Char) (h : isWS c = true) : Char.isDigit c = false := by
  unfold isWS at h
  rcases Bool.or_eq_true_iff.mp h with h1 | h1
  · rcases Bool.or_eq_true_iff.mp h1 with h2 | h2
    · rcases Bool.or_eq_true_iff.mp h2 with h3 | h3 <;>
        (simp only [decide_eq_true_eq] at h3; rw [h3]; rfl)
    · simp only [decide_eq_true_eq] at h2; rw [h2]; rfl
  · simp only [decide_eq_true_eq] at h1; rw [h1]; rfl

/-- A digit is not whitespace. -/
theorem digit_not_ws (c : Char) (h : Char.isDigit c = true) : isWS c = false := by
  cases hh : isWS c with
  | false => rfl
  | true => rw [ws_not_digit c hh] at h; cases h

/-- The sign part returned by `scanSign` holds only sign characters. -/
theorem scanSign_fst (v : Chars) : ∀ c ∈ (scanSign v).1, c = '-' ∨ c = '+' := by
  cases v with
  | nil => intro c hc; simp [scanSign] at hc
  | cons a cs =>
    intro c hc
    by_cases h : (a = '-' || a = '+') = true
    · simp only [scanSign, if_pos h, List.mem_singleton] at hc
      rw [hc]
      rcases Bool.or_eq_true_iff.mp h with h1 | h1
      · exact Or.inl (by simpa using h1)
      · exact Or.inr (by simpa using h1)
    · simp [scanSign, h] at hc

/-- Shape of a full numeral: an optional sign block, a digit block, and
optionally a point followed by a digit block. -/
theorem isNumeral_decomp (v : Chars) (hv : isNumeral v = true) :
    ∃ sgn ip rest, v = sgn ++ ip ++ rest ∧
      (∀ c ∈ sgn, c = '-' ∨ c = '+') ∧
      (∀ c ∈ ip, Char.isDigit c = true) ∧
      ((rest = [] ∧ ip ≠ []) ∨ ∃ fp, rest = '.' :: fp ∧ ∀ c ∈ fp, Char.isDigit c = true) := by
  have hne : v ≠ [] := by
    intro h
    rw [h] at hv
    simp [isNumeral] at hv
  have hsc : scanNum v = (v, []) := by
    have h2 := hv
    unfold isNumeral at h2
    simp only [Bool.and_eq_true, decide_eq_true_eq] at h2
    exact h2.2
  have hs1 := scanSign_eq v
  have hsgnc := scanSign_fst v
  unfold scanNum at hsc
  simp only at hsc
  set sgn := (scanSign v).1 with hsgn
  set s1 := (scanSign v).2 with hs1d
  have hip : s1.takeWhile Char.isDigit ++ s1.dropWhile Char.isDigit = s1 :=
    List.takeWhile_append_dropWhile Char.isDigit s1
  set ip := s1.takeWhile Char.isDigit with hipd
  set s2 := s1.dropWhile Char.isDigit with hs2d
  have hipdig : ∀ c ∈ ip, Char.isDigit c = true := fun c hc => List.mem_takeWhile_imp hc
  clear_value sgn s1 ip s2
  split at hsc
  next u s3 =>
    split at hsc
    next hcond =>
      injection hsc with h1 h2
      exact absurd h1.symm hne
    next hcond =>
      injection hsc with hveq hs4
      have hfp : List.takeWhile Char.isDigit s3 = s3 := by
        have h5 := List.takeWhile_append_dropWhile Char.isDigit s3
        rw [hs4, List.append_nil] at h5
        exact h5
      have hs3dig : ∀ c ∈ s3, Char.isDigit c = true := by
        intro c hc
        rw [← hfp] at hc
        exact List.mem_takeWhile_imp hc
      refine ⟨sgn, ip, '.' :: s3, ?_, hsgnc, hipdig, Or.inr ⟨s3, rfl, hs3dig⟩⟩
      rw [← hveq, hfp]
  next hnd =>
    split at hsc
    next hip0 =>
      injection hsc with h1 h2
      exact absurd h1.symm hne
    next hip0 =>
      injection hsc with hveq hs20
      refine ⟨sgn, ip, [], ?_, hsgnc, hipdig, Or.inl ⟨rfl, ?_⟩⟩
      · rw [List.append_nil, ← hveq]
      · intro hipn
        exact hip0 (by rw [hipn]; rfl)

/-- No character of a full numeral is whitespace. -/
theorem numeral_not_ws (v : Chars) (hv : isNumeral v = true) :
    ∀ c ∈ v, isWS c = false := by
  obtain ⟨sgn, ip, rest, hveq, hsgn, hip, hrest⟩ := isNumeral_decomp v hv
  intro c hc
  rw [hveq] at hc
  rcases List.mem_append.mp hc with h1 | h1
  · rcases List.mem_append.mp h1 with h2 | h2
    · rcases hsgn c h2 with h3 | h3 <;> (rw [h3]; rfl)
    · exact digit_not_ws c (hip c h2)
  · rcases hrest with ⟨hr0, _⟩ | ⟨fp, hfp, hfpd⟩
    · rw [hr0] at h1
      simp at h1
    · rw [hfp] at h1
      rcases List.mem_cons.mp h1 with h2 | h2
      · rw [h2]; rfl
      · exact digit_not_ws c (hfpd c h2)

/-- A full numeral is a nonempty string. -/
theorem numeral_ne_nil (v : Chars) (hv : isNumeral v = true) : v ≠ [] := by
  intro h
  rw [h] at hv
  simp [isNumeral] at hv


/-- The head of a numeral followed by anything is not whitespace. -/
theorem numeral_append_head (v X : Chars) (hv : isNumeral v = true) :
    ∀ c, (v ++ X).head? = some c → isWS c = false := by
  cases v with
  | nil => exact absurd rfl (numeral_ne_nil [] hv)
  | cons a v2 =>
    intro c hc
    simp only [List.cons_append, List.head?] at hc
    cases hc
    exact numeral_not_ws (a :: v2) hv a (by simp)

/-- `np.fromstring` of an all-whitespace string reads no values. -/
theorem fromstringF_ws (fuel : Nat) (s : Chars) (h : ∀ c ∈ s, isWS c = true) :
    fromstringF fuel s = [] := by
  cases fuel with
  | zero => rfl
  | succ f =>
    have hdrop : s.dropWhile isWS = [] := List.dropWhile_eq_nil_iff.mpr h
    simp [fromstringF, hdrop, scanNum, scanSign]

/-- Reading back a space-joined list of numerals, with all-whitespace
padding on either side, recovers exactly that list: the core round-trip
fact for one saved vector line. -/
theorem fromstring_join (row : List Chars) :
    ∀ (pre t : Chars) (fuel : Nat),
      (∀ c ∈ pre, isWS c = true) → (∀ v ∈ row, isNumeral v = true) →
      (∀ c ∈ t, isWS c = true) →
      (pre ++ joinSp row ++ t).length < fuel →
      fromstringF fuel (pre ++ joinSp row ++ t) = row := by
  induction row with
  | nil =>
    intro pre t fuel hpre hrow ht hf
    apply fromstringF_ws
    intro c hc
    simp only [joinSp, List.append_nil] at hc
    rcases List.mem_append.mp hc with h1 | h1
    · exact hpre c h1
    · exact ht c h1
  | cons v rest ih =>
    intro pre t fuel hpre hrow ht hf
    have hv : isNumeral v = true := hrow v (by simp)
    have hvne : v ≠ [] := numeral_ne_nil v hv
    cases fuel with
    | zero => exact absurd hf (Nat.not_lt_zero _)
    | succ f =>
      cases rest with
      | nil =>
        have hassoc : pre ++ joinSp [v] ++ t = pre ++ (v ++ t) := by
          simp [joinSp]
        rw [hassoc]
        simp only [fromstringF]
        have hdrop : (pre ++ (v ++ t)).dropWhile isWS = v ++ t :=
          (takeWhile_append_eq isWS pre (v ++ t) hpre (numeral_append_head v t hv)).2
        rw [hdrop]
        have hscan : scanNum (v ++ t) = (v, t) :=
          scanNum_stable v t hv (fun c hc => ht c (List.mem_of_mem_head? hc))
        rw [hscan]
        have hvem : v.isEmpty = false := by
          cases v with
          | nil => exact absurd rfl hvne
          | cons a v2 => rfl
        simp only [hvem, Bool.false_eq_true, if_false]
        cases t with
        | nil => rfl
        | cons c t2 =>
          have hwc : isWS c = true := ht c (by simp)
          simp only [hwc, if_true]
          rw [fromstringF_ws f (c :: t2) ht]
      | cons w rest2 =>
        have hassoc : pre ++ joinSp (v :: w :: rest2) ++ t =
            pre ++ (v ++ ' ' :: (joinSp (w :: rest2) ++ t)) := by
          simp [joinSp]
        rw [hassoc]
        simp only [fromstringF]
        have hdrop : (pre ++ (v ++ ' ' :: (joinSp (w :: rest2) ++ t))).dropWhile isWS =
            v ++ ' ' :: (joinSp (w :: rest2) ++ t) :=
          (takeWhile_append_eq isWS pre _ hpre (numeral_append_head v _ hv)).2
        rw [hdrop]
        have hscan : scanNum (v ++ ' ' :: (joinSp (w :: rest2) ++ t)) =
            (v, ' ' :: (joinSp (w :: rest2) ++ t)) :=
          scanNum_stable v _ hv (by
            intro c hc
            simp only [List.head?] at hc
            cases hc
            rfl)
        rw [hscan]
        have hvem : v.isEmpty = false := by
          cases v with
          | nil => exact absurd rfl hvne
          | cons a v2 => rfl
        simp only [hvem, Bool.false_eq_true, if_false]
        have hws : isWS ' ' = true := rfl
        simp only [hws, if_true]
        have hih : fromstringF f ([' '] ++ joinSp (w :: rest2) ++ t) = w :: rest2 := by
          apply ih [' '] t f
          · intro c hc
            simp only [List.mem_singleton] at hc
            rw [hc]
            rfl
          · intro x hx
            exact hrow x (by simp [hx])
          · exact ht
          · rw [hassoc] at hf
            simp only [List.length_append, List.length_cons, List.length_singleton, List.length_nil] at hf ⊢
            have hvl : 1 ≤ v.length := by
              cases v with
              | nil => exact absurd rfl hvne
              | cons a v2 => simp
            omega
        have heq2 : [' '] ++ joinSp (w :: rest2) ++ t = ' ' :: (joinSp (w :: rest2) ++ t) := by
          simp
        rw [heq2] at hih
        rw [hih]


/-- A list whose head does not satisfy `p` is unchanged by `dropWhile`. -/
theorem dropWhile_head_not (p : Char → Bool) (s : Chars)
    (h : ∀ c, s.head? = some c → p c = false) : s.dropWhile p = s := by
  have h2 := takeWhile_append_eq p [] s (by intro c hc; simp at hc) h
  simpa using h2.2

/-- Splitting a line made of a whitespace-free token, one space, and a
remainder whose head is not whitespace recovers the token and the
remainder. -/
theorem pySplit1_spec (tok rest : Chars)
    (h1 : tok ≠ []) (h2 : ∀ c ∈ tok, isWS c = false)
    (h3 : ∀ c, rest.head? = some c → isWS c = false) (h4 : rest ≠ []) :
    pySplit1 (tok ++ ' ' :: rest) = some (tok, rest) := by
  simp only [pySplit1]
  have hd1 : (tok ++ ' ' :: rest).dropWhile isWS = tok ++ ' ' :: rest := by
    apply dropWhile_head_not
    intro c hc
    cases tok with
    | nil => exact absurd rfl h1
    | cons a t2 =>
      simp only [List.cons_append, List.head?] at hc
      injection hc with hac
      rw [← hac]
      exact h2 a (by simp)
  rw [hd1]
  have htk := takeWhile_append_eq (fun c => !isWS c) tok (' ' :: rest)
    (fun c hc => by simp [h2 c hc])
    (by intro c hc; simp only [List.head?] at hc; cases hc; rfl)
  rw [htk.1, htk.2]
  have hd2 : (' ' :: rest).dropWhile isWS = rest := by
    rw [List.dropWhile_cons_of_pos (by rfl)]
    exact dropWhile_head_not isWS rest h3
  rw [hd2]
  have hte : tok.isEmpty = false := by
    cases tok with
    | nil => exact absurd rfl h1
    | cons a t2 => rfl
  have hre : rest.isEmpty = false := by
    cases rest with
    | nil => exact absurd rfl h4
    | cons a t2 => rfl
  simp [hte, hre]

/-- The data line written by `save`, re-associated to expose the token,
the separating space, and the newline-terminated remainder. -/
theorem dataLineOf_eq (tok : Chars) (row : List Chars) :
    dataLineOf tok row = tok ++ ' ' :: (joinSp row ++ ['\n']) := by
  simp [dataLineOf]

/-- Every character of a space-join is a separator space or a character
of one of the joined strings. -/
theorem mem_joinSp (row : List Chars) (c : Char) (hc : c ∈ joinSp row) :
    c = ' ' ∨ ∃ v ∈ row, c ∈ v := by
  induction row with
  | nil => simp [joinSp] at hc
  | cons v rest ih =>
    cases rest with
    | nil =>
      simp only [joinSp] at hc
      exact Or.inr ⟨v, by simp, hc⟩
    | cons w rest2 =>
      simp only [joinSp] at hc
      rcases List.mem_append.mp hc with h1 | h1
      · exact Or.inr ⟨v, by simp, h1⟩
      · rcases List.mem_cons.mp h1 with h2 | h2
        · exact Or.inl h2
        · rcases ih h2 with h3 | ⟨u, hu1, hu2⟩
          · exact Or.inl h3
          · exact Or.inr ⟨u, by simp [hu1], hu2⟩

/-- Parsing one saved data line recovers the token and the row. -/
theorem parseLine_dataLine (tok : Chars) (row : List Chars)
    (h1 : tok ≠ []) (h2 : ∀ c ∈ tok, isWS c = false)
    (hrow : ∀ v ∈ row, isNumeral v = true) (hrne : row ≠ []) :
    parseLine (dataLineOf tok row) = .ok (tok, row) := by
  unfold parseLine
  rw [dataLineOf_eq]
  rw [pySplit1_spec tok (joinSp row ++ ['\n']) h1 h2 ?hh ?hn]
  case hh =>
    intro c hc
    cases row with
    | nil => exact absurd rfl hrne
    | cons v rest =>
      have hv : isNumeral v = true := hrow v (by simp)
      cases rest with
      | nil =>
        simp only [joinSp] at hc
        exact numeral_append_head v ['\n'] hv c hc
      | cons w rest2 =>
        simp only [joinSp, List.append_assoc] at hc
        exact numeral_append_head v _ hv c hc
  case hn =>
    intro hx
    have : ('\n' : Char) ∈ joinSp row ++ ['\n'] := by simp
    rw [hx] at this
    simp at this
  have hfs : fromstring (joinSp row ++ ['\n']) = row := by
    unfold fromstring
    have h5 := fromstring_join row [] ['\n'] ((joinSp row ++ ['\n']).length + 1)
      (by intro c hc; simp at hc) hrow
      (by intro c hc; simp only [List.mem_singleton] at hc; rw [hc]; rfl)
      (by simp)
    simpa using h5
  show Except.ok (tok, fromstring (joinSp row ++ ['\n'])) = Except.ok (tok, row)
  rw [hfs]


/-- A newline-free text is one unterminated line. -/
theorem breakNl_noNl (s : Chars) (h : ('\n' : Char) ∉ s) : breakNl s = (s, []) := by
  induction s with
  | nil => rfl
  | cons c cs ih =>
    have hc : ¬(c = '\n') := fun hh => h (by simp [hh])
    have ih2 := ih (fun hh => h (by simp [hh]))
    simp [breakNl, hc, ih2]

/-- Breaking at the first newline of a newline-free prefix followed by a
newline splits exactly there. -/
theorem breakNl_append (a b : Chars) (h : ('\n' : Char) ∉ a) :
    breakNl (a ++ '\n' :: b) = (a ++ ['\n'], b) := by
  induction a with
  | nil => simp [breakNl]
  | cons c cs ih =>
    have hc : ¬(c = '\n') := fun hh => h (by simp [hh])
    have ih2 := ih (fun hh => h (by simp [hh]))
    simp [breakNl, hc, ih2]

/-- Unfolding one step of the line splitter on a nonempty text. -/
theorem pyLinesF_cons (f : Nat) (s : Chars) (hs : s ≠ []) :
    pyLinesF (f + 1) s = (breakNl s).1 :: pyLinesF f (breakNl s).2 := by
  cases s with
  | nil => exact absurd rfl hs
  | cons c cs => rfl

/-- Splitting the concatenation of newline-terminated lines whose
contents are newline-free recovers those lines. -/
theorem pyLinesF_join (ls : List Chars) :
    ∀ fuel : Nat, (∀ l ∈ ls, ('\n' : Char) ∉ l) →
      ((ls.map (fun l => l ++ ['\n'])).flatten).length < fuel →
      pyLinesF fuel ((ls.map (fun l => l ++ ['\n'])).flatten) = ls.map (fun l => l ++ ['\n']) := by
  induction ls with
  | nil =>
    intro fuel h hf
    cases fuel with
    | zero => rfl
    | succ f => rfl
  | cons a ls2 ih =>
    intro fuel h hf
    cases fuel with
    | zero => exact absurd hf (Nat.not_lt_zero _)
    | succ f =>
      have hfl : ((a :: ls2).map (fun l => l ++ ['\n'])).flatten =
          a ++ '\n' :: ((ls2.map (fun l => l ++ ['\n'])).flatten) := by
        simp
      rw [hfl]
      have hne : a ++ '\n' :: ((ls2.map (fun l => l ++ ['\n'])).flatten) ≠ [] := by
        intro hx
        have : ('\n' : Char) ∈ a ++ '\n' :: ((ls2.map (fun l => l ++ ['\n'])).flatten) := by simp
        rw [hx] at this
        simp at this
      rw [pyLinesF_cons f _ hne]
      rw [breakNl_append a _ (h a (by simp))]
      have ih2 := ih f (fun l hl => h l (by simp [hl]))
        (by
          rw [hfl] at hf
          simp only [List.length_append, List.length_cons] at hf ⊢
          omega)
      simp only [ih2]
      simp

/-- The saved vector file splits into the header line and the data
lines: the header is newline-free, so the first line is exactly the
header with its newline, and the data lines follow. -/
theorem pyLines_header (hd : Chars) (ls : List Chars)
    (hhd : ('\n' : Char) ∉ hd) (hls : ∀ l ∈ ls, ('\n' : Char) ∉ l) :
    pyLines (hd ++ '\n' :: (ls.map (fun l => l ++ ['\n'])).flatten) =
      (hd ++ ['\n']) :: ls.map (fun l => l ++ ['\n']) := by
  unfold pyLines
  set s := hd ++ '\n' :: (ls.map (fun l => l ++ ['\n'])).flatten with hs
  have hne : s ≠ [] := by
    intro hx
    have : ('\n' : Char) ∈ s := by rw [hs]; simp
    rw [hx] at this
    simp at this
  cases hlen : s.length with
  | zero =>
    exact absurd (List.length_eq_zero.mp hlen) hne
  | succ n =>
    rw [pyLinesF_cons (n + 1) s hne]
    rw [hs, breakNl_append hd _ hhd]
    have hfl : pyLinesF (n + 1) ((ls.map (fun l => l ++ ['\n'])).flatten) = ls.map (fun l => l ++ ['\n']) := by
      apply pyLinesF_join ls (n + 1) hls
      have : s.length = hd.length + 1 + ((ls.map (fun l => l ++ ['\n'])).flatten).length := by
        rw [hs]
        simp only [List.length_append, List.length_cons]
        omega
      omega
    rw [hfl]

/-- A loop body that succeeds on every element maps the list. -/
theorem mapE_ok (l : List α) (f : α → Except Err β) (g : α → β)
    (h : ∀ a ∈ l, f a = .ok (g a)) : mapE f l = .ok (l.map g) := by
  induction l with
  | nil => rfl
  | cons a as ih =>
    have ha := h a (by simp)
    have ih2 := ih (fun x hx => h x (by simp [hx]))
    simp [mapE, ha, ih2]

/-- Mapping before the loop composes into the loop body. -/
theorem mapE_comp_map (l : List α) (g : α → γ) (f : γ → Except Err β) :
    mapE f (l.map g) = mapE (fun a => f (g a)) l := by
  induction l with
  | nil => rfl
  | cons a as ih =>
    simp only [List.map_cons, mapE, ih]


/-- The character of a digit value below ten is a digit character. -/
theorem digitChar_isDigit (d : Nat) (h : d < 10) : Char.isDigit (digitChar d) = true := by
  interval_cases d <;> decide

/-- Every character printed by the decimal printer is a digit. -/
theorem natStrF_digits (fuel : Nat) : ∀ (n : Nat) (acc : Chars),
    (∀ c ∈ acc, Char.isDigit c = true) → ∀ c ∈ natStrF fuel n acc, Char.isDigit c = true := by
  induction fuel with
  | zero => exact fun n acc hacc c hc => hacc c hc
  | succ f ih =>
    intro n acc hacc c hc
    have hmod : n % 10 < 10 := Nat.mod_lt _ (by omega)
    have hacc2 : ∀ c ∈ digitChar (n % 10) :: acc, Char.isDigit c = true := by
      intro x hx
      rcases List.mem_cons.mp hx with h1 | h1
      · rw [h1]; exact digitChar_isDigit _ hmod
      · exact hacc x h1
    by_cases hn : n < 10
    · simp only [natStrF, if_pos hn] at hc
      exact hacc2 c hc
    · simp only [natStrF, if_neg hn] at hc
      exact ih (n / 10) _ hacc2 c hc

/-- Every character of `str(n)` is a digit. -/
theorem natStr_digits (n : Nat) : ∀ c ∈ natStr n, Char.isDigit c = true :=
  natStrF_digits (n + 1) n [] (by intro c hc; simp at hc)

/-- The header text holds no newline: its characters are digits and one
space. -/
theorem headerOf_no_nl (nums dims : Nat) : ('\n' : Char) ∉ headerOf nums dims := by
  intro hc
  unfold headerOf at hc
  rcases List.mem_append.mp hc with h1 | h1
  · have := natStr_digits nums _ h1
    simp [Char.isDigit] at this
  · rcases List.mem_cons.mp h1 with h2 | h2
    · simp at h2
    · have := natStr_digits dims _ h2
      simp [Char.isDigit] at this

/-- Re-reading the vector file written for rows `ps` (a header line and
one data line per token/row pair) yields exactly the tokens and rows. -/
theorem readVectors_saved (hd : Chars) (ps : List (Chars × List Chars))
    (hhd : ('\n' : Char) ∉ hd)
    (hps : ∀ p ∈ ps, p.1 ≠ [] ∧ (∀ c ∈ p.1, isWS c = false) ∧
           (∀ v ∈ p.2, isNumeral v = true) ∧ p.2 ≠ []) :
    readVectors (hd ++ '\n' :: (ps.map (fun p => dataLineOf p.1 p.2)).flatten) =
      .ok (ps.map Prod.fst, ps.map Prod.snd) := by
  have hinner : ps.map (fun p => dataLineOf p.1 p.2) =
      (ps.map (fun p => p.1 ++ ' ' :: joinSp p.2)).map (fun l => l ++ ['\n']) := by
    rw [List.map_map]
    apply List.map_congr_left
    intro p hp
    simp [dataLineOf]
  have hnl : ∀ l ∈ ps.map (fun p => p.1 ++ ' ' :: joinSp p.2), ('\n' : Char) ∉ l := by
    intro l hl
    rcases List.mem_map.mp hl with ⟨p, hp, hpe⟩
    obtain ⟨hp1, hp2, hp3, hp4⟩ := hps p hp
    intro hc
    rw [← hpe] at hc
    rcases List.mem_append.mp hc with h1 | h1
    · have := hp2 _ h1
      simp [isWS] at this
    · rcases List.mem_cons.mp h1 with h2 | h2
      · simp at h2
      · rcases mem_joinSp _ _ h2 with h3 | ⟨v, hv1, hv2⟩
        · simp at h3
        · have := numeral_not_ws v (hp3 v hv1) _ hv2
          simp [isWS] at this
  unfold readVectors
  rw [hinner, pyLines_header _ _ hhd hnl]
  have hdrop : ((hd ++ ['\n']) :: (ps.map (fun p => p.1 ++ ' ' :: joinSp p.2)).map
      (fun l => l ++ ['\n'])).drop 1 =
      (ps.map (fun p => p.1 ++ ' ' :: joinSp p.2)).map (fun l => l ++ ['\n']) := rfl
  rw [hdrop, List.map_map, mapE_comp_map]
  rw [mapE_ok ps _ id ?hl]
  case hl =>
    intro p hp
    obtain ⟨hp1, hp2, hp3, hp4⟩ := hps p hp
    have hline : (fun l => l ++ ['\n']) ((fun p : Chars × List Chars => p.1 ++ ' ' :: joinSp p.2) p) =
        dataLineOf p.1 p.2 := by
      simp [dataLineOf]
    simp only [Function.comp_apply, hline]
    rw [parseLine_dataLine p.1 p.2 hp1 hp2 hp3 hp4]
    simp
  simp


/-- Pointwise equal loop bodies give equal loops. -/
theorem mapE_congr (l : List α) (f g : α → Except Err β)
    (h : ∀ a ∈ l, f a = g a) : mapE f l = mapE g l := by
  induction l with
  | nil => rfl
  | cons a as ih =>
    have ih2 := ih (fun x hx => h x (by simp [hx]))
    simp only [mapE, h a (by simp), ih2]

/-- The save loop over `range nums` with in-range indices produces the
data lines of the zipped token/row pairs. -/
theorem mapE_range_get (ts : List Chars) : ∀ rs : List (List Chars), ts.length = rs.length →
    mapE (fun i =>
      match ts[i]?, rs[i]? with
      | some t, some r => Except.ok (dataLineOf t r)
      | _, _ => Except.error Err.indexError) (List.range ts.length) =
    .ok ((ts.zip rs).map (fun p => dataLineOf p.1 p.2)) := by
  induction ts with
  | nil =>
    intro rs h
    simp [mapE, List.range_zero]
  | cons t ts2 ih =>
    intro rs h
    cases rs with
    | nil => simp at h
    | cons r rs2 =>
      have h2 : ts2.length = rs2.length := by simpa using h
      rw [List.length_cons, List.range_succ_eq_map]
      simp only [mapE, List.getElem?_cons_zero]
      rw [mapE_comp_map]
      rw [mapE_congr _ _ (fun i =>
        match ts2[i]?, rs2[i]? with
        | some t, some r => Except.ok (dataLineOf t r)
        | _, _ => Except.error Err.indexError)
        (by intro i hi; simp only [Nat.succ_eq_add_one, List.getElem?_cons_succ])]
      rw [ih rs2 h2]
      simp [List.zip_cons_cons]

/-- With a header of at most thirty characters, the seek-and-overwrite
leaves the rest of the placeholder spaces and the newline intact. -/
theorem overwrite_short (body hd : Chars) (h : hd.length ≤ 30) :
    overwriteAt0 (List.replicate 30 ' ' ++ '\n' :: body) hd =
      (hd ++ List.replicate (30 - hd.length) ' ') ++ '\n' :: body := by
  unfold overwriteAt0
  rw [List.drop_append_of_le_length (by simpa using h)]
  rw [List.drop_replicate]
  simp

/-- `save` succeeds on an instance whose recorded size matches its
vocabulary and table, and writes the hyperparameter blob and the
overwritten vector file. -/
theorem save_ok (m : Fasttext)
    (hv : m.vocabSize = m.wordVocab.tokens.length)
    (he : m.vocabSize = m.embed.length) :
    m.save = .ok
      { jsonFile := some ⟨m.dropoutP, m.requiresGrad, m.trainState, m.kwargs⟩,
        embedFile := some (overwriteAt0 (List.replicate 30 ' ' ++ '\n' ::
          ((m.wordVocab.tokens.zip m.embed).map (fun p => dataLineOf p.1 p.2)).flatten)
          (headerOf m.vocabSize m.embedDim)) } := by
  unfold Fasttext.save
  rw [hv, mapE_range_get m.wordVocab.tokens m.embed (by rw [← hv, ← he])]


/-- Rows of one uniform length stack without a ragged error. -/
theorem sameLens_of_uniform (rs : List (List Chars)) (d : Nat)
    (h : ∀ r ∈ rs, r.length = d) : sameLens rs = true := by
  cases rs with
  | nil => rfl
  | cons r0 rest =>
    simp only [sameLens, List.all_eq_true]
    intro q hq
    rw [h q (by simp [hq]), h r0 (by simp)]
    simp

/-- The whole saved vector file re-reads to the tokens and rows it was
written from, provided the header fits the placeholder. -/
theorem readVectors_of_save (m : Fasttext)
    (hv : m.vocabSize = m.wordVocab.tokens.length)
    (he : m.vocabSize = m.embed.length)
    (hrows : ∀ r ∈ m.embed, r.length = m.embedDim)
    (hdim : 1 ≤ m.embedDim)
    (htok : ∀ t ∈ m.wordVocab.tokens, t ≠ [] ∧ ∀ c ∈ t, isWS c = false)
    (hval : ∀ r ∈ m.embed, ∀ v ∈ r, isNumeral v = true)
    (hlen : (headerOf m.vocabSize m.embedDim).length ≤ 30) :
    readVectors (overwriteAt0 (List.replicate 30 ' ' ++ '\n' ::
        ((m.wordVocab.tokens.zip m.embed).map (fun p => dataLineOf p.1 p.2)).flatten)
        (headerOf m.vocabSize m.embedDim)) =
      .ok (m.wordVocab.tokens, m.embed) := by
  rw [overwrite_short _ _ hlen]
  have hnl : ('\n' : Char) ∉ headerOf m.vocabSize m.embedDim ++
      List.replicate (30 - (headerOf m.vocabSize m.embedDim).length) ' ' := by
    intro hc
    rcases List.mem_append.mp hc with h1 | h1
    · exact headerOf_no_nl _ _ h1
    · have := List.eq_of_mem_replicate h1
      simp at this
  have hps : ∀ p ∈ m.wordVocab.tokens.zip m.embed, p.1 ≠ [] ∧ (∀ c ∈ p.1, isWS c = false) ∧
      (∀ v ∈ p.2, isNumeral v = true) ∧ p.2 ≠ [] := by
    intro p hp
    obtain ⟨a, b⟩ := p
    obtain ⟨hp1, hp2⟩ := List.of_mem_zip hp
    refine ⟨(htok a hp1).1, (htok a hp1).2, hval b hp2, ?_⟩
    intro hx
    have hb := hrows b hp2
    simp only at hx
    rw [hx] at hb
    simp at hb
    omega
  have hrv := readVectors_saved _ _ hnl hps
  rw [List.append_assoc] at hrv ⊢
  rw [hrv]
  have hle : m.wordVocab.tokens.length = m.embed.length := by rw [← hv, ← he]
  rw [List.map_fst_zip _ _ (by omega), List.map_snd_zip _ _ (by omega)]


/-- C1 counterexample: the claim quantifies over every instance with a
non-empty vocabulary, but for the instance whose token is `a b` the
saved line `a b 0.5` re-reads as token `a` with an empty vector, so the
reloaded `embed_dim` is 0 instead of 1 and the table row differs. -/
theorem c1_counterexample : ¬ roundTripPreserves instC1cx "f" := by
  rintro ⟨sf, m2, h1, h2, h3, h4, h5⟩
  have hA : instC1cx.save = .ok
      { jsonFile := some ⟨floatHalf, true, true, []⟩,
        embedFile := some ("1 1".data ++ List.replicate 27 ' ' ++ '\n' :: "a b 0.5".data ++ ['\n']) } := by
    decide
  rw [hA] at h1
  injection h1 with hsf
  subst hsf
  have hB : Fasttext.load
      { jsonFile := some ⟨floatHalf, true, true, []⟩,
        embedFile := some ("1 1".data ++ List.replicate 27 ' ' ++ '\n' :: "a b 0.5".data ++ ['\n']) } "f" =
      .ok { wordVocab := ⟨[['a']]⟩, embed := [[]], vocabSize := 1, embedDim := 0,
            requiresGrad := true, dropoutP := floatHalf, trainState := true, kwargs := [] } := by
    decide
  rw [hB] at h2
  injection h2 with hm2
  subst hm2
  exact absurd h4 (by decide)

/-- C1 (amended): for every instance with a non-empty vocabulary whose
tokens are nonempty and whitespace-free, whose recorded `vocab_size`
matches the vocabulary and the table, whose rows all have length
`embed_dim ≥ 1` and hold printed float values, and whose header text
fits the 30-character placeholder, saving and then loading yields an
instance with the same `vocab_size`, the same `embed_dim`, and table
rows equal up to stringifying floats and re-parsing them (the identity
on the printed-value model). -/
theorem c1_round_trip (m : Fasttext) (folder : String)
    (h0 : m.wordVocab.tokens ≠ [])
    (hv : m.vocabSize = m.wordVocab.tokens.length)
    (he : m.vocabSize = m.embed.length)
    (hrows : ∀ r ∈ m.embed, r.length = m.embedDim)
    (hdim : 1 ≤ m.embedDim)
    (htok : ∀ t ∈ m.wordVocab.tokens, t ≠ [] ∧ ∀ c ∈ t, isWS c = false)
    (hval : ∀ r ∈ m.embed, ∀ v ∈ r, isNumeral v = true)
    (hlen : (headerOf m.vocabSize m.embedDim).length ≤ 30) :
    roundTripPreserves m folder := by
  have hsave := save_ok m hv he
  have hrv := readVectors_of_save m hv he hrows hdim htok hval hlen
  have hstack : npStack m.embed = .ok m.embed := by
    unfold npStack
    rw [sameLens_of_uniform m.embed m.embedDim hrows]
    rfl
  have hne : m.embed ≠ [] := by
    intro hx
    rw [hx] at he
    simp at he
    rw [he] at hv
    exact h0 (List.length_eq_zero.mp hv.symm)
  obtain ⟨r0, rest, hre⟩ : ∃ r0 rest, m.embed = r0 :: rest := by
    cases hemb : m.embed with
    | nil => exact absurd hemb hne
    | cons a l => exact ⟨a, l, rfl⟩
  have hload : Fasttext.load
      { jsonFile := some ⟨m.dropoutP, m.requiresGrad, m.trainState, m.kwargs⟩,
        embedFile := some (overwriteAt0 (List.replicate 30 ' ' ++ '\n' ::
          ((m.wordVocab.tokens.zip m.embed).map (fun p => dataLineOf p.1 p.2)).flatten)
          (headerOf m.vocabSize m.embedDim)) } folder = .ok
      { wordVocab := Vocab.fromList m.wordVocab.tokens [] false,
        embed := m.embed, vocabSize := m.embed.length, embedDim := r0.length,
        requiresGrad := m.requiresGrad, dropoutP := m.dropoutP,
        trainState := m.trainState, kwargs := m.kwargs } := by
    unfold Fasttext.load
    simp only
    rw [hrv]
    simp only
    rw [hstack]
    simp only
    rw [hre]
    unfold Fasttext.init
    simp only
  refine ⟨_, _, hsave, hload, he.symm, ?_, rfl⟩
  exact hrows r0 (by rw [hre]; simp)

/-- Witness for the amended C1 on a concrete two-token instance. -/
theorem c1_round_trip_witness : roundTripPreserves instC1w "f" :=
  c1_round_trip instC1w "f" (by decide) (by decide) (by decide) (by decide)
    (by decide) (by decide) (by decide) (by decide)


/-- The only error the line parser raises is the parse error. -/
theorem parseLine_error_kind (l : Chars) (e : Err) (h : parseLine l = .error e) :
    e = .parseError := by
  unfold parseLine at h
  cases hp : pySplit1 l with
  | none =>
    rw [hp] at h
    injection h with h2
    exact h2.symm
  | some p =>
    rw [hp] at h
    cases h

/-- A loop whose body only raises `E` only raises `E`. -/
theorem mapE_error_kind (l : List α) (f : α → Except Err β) (E : Err)
    (hk : ∀ a e0, f a = .error e0 → e0 = E) :
    ∀ e, mapE f l = .error e → e = E := by
  induction l with
  | nil => intro e h; cases h
  | cons a as ih =>
    intro e h
    simp only [mapE] at h
    cases hfa : f a with
    | error e0 =>
      rw [hfa] at h
      injection h with h2
      rw [← h2]
      exact hk a e0 hfa
    | ok b =>
      rw [hfa] at h
      cases hrest : mapE f as with
      | error e1 =>
        rw [hrest] at h
        injection h with h2
        rw [← h2]
        exact ih e1 hrest
      | ok bs =>
        rw [hrest] at h
        cases h

/-- A loop aborts with `E` when some element raises and the body raises
only `E`. -/
theorem mapE_error_of_mem (l : List α) (f : α → Except Err β) (a : α) (E : Err)
    (ha : a ∈ l) (hfa : ∀ b, f a ≠ .ok b)
    (hk : ∀ x e0, f x = .error e0 → e0 = E) :
    mapE f l = .error E := by
  induction l with
  | nil => simp at ha
  | cons b bs ih =>
    simp only [mapE]
    cases hfb : f b with
    | error e0 =>
      rw [hk b e0 hfb]
    | ok v =>
      have hab : a ∈ bs := by
        rcases List.mem_cons.mp ha with h1 | h1
        · rw [h1] at hfa
          exact absurd hfb (hfa v)
        · exact h1
      rw [ih hab]

/-- The only error the shared file reader raises is the parse error. -/
theorem readVectors_error_kind (content : Chars) (e : Err)
    (h : readVectors content = .error e) : e = .parseError := by
  unfold readVectors at h
  cases hm : mapE parseLine ((pyLines content).drop 1) with
  | error e0 =>
    rw [hm] at h
    injection h with h2
    rw [← h2]
    exact mapE_error_kind _ parseLine .parseError (fun l e1 he => parseLine_error_kind l e1 he) e0 hm
  | ok prs =>
    rw [hm] at h
    cases h

/-- Stacking succeeds exactly on uniform rows and returns them. -/
theorem npStack_ok_inv (rows table : List (List Chars))
    (h : npStack rows = .ok table) : table = rows ∧ sameLens rows = true := by
  unfold npStack at h
  by_cases hs : sameLens rows = true
  · rw [if_pos hs] at h
    injection h with h2
    exact ⟨h2.symm, hs⟩
  · rw [if_neg hs] at h
    cases h

/-- The reader returns as many tokens as rows. -/
theorem readVectors_lengths (content : Chars) (toks : List Chars)
    (rows : List (List Chars)) (h : readVectors content = .ok (toks, rows)) :
    toks.length = rows.length := by
  unfold readVectors at h
  cases hm : mapE parseLine ((pyLines content).drop 1) with
  | error e0 =>
    rw [hm] at h
    cases h
  | ok prs =>
    rw [hm] at h
    injection h with h2
    injection h2 with h3 h4
    rw [← h3, ← h4]
    simp


/-- Inversion of a successful `from_pretrained` core run: the file was
read, the synthetic rows were inserted at the configured end, the rows
were uniform, and the instance records the table and the hard-coded
hyperparameters. -/
theorem fromPretrainedCore_inv (dims : Nat) (sp : List Chars) (sf : Bool)
    (content : Chars) (randRow : List Chars) (inst : Fasttext) (vocab : Vocab)
    (h : fromPretrainedCore dims sp sf content randRow = .ok (inst, vocab)) :
    ∃ toks rows, readVectors content = .ok (toks, rows) ∧
      vocab = Vocab.fromList toks sp sf ∧
      inst.wordVocab = vocab ∧
      inst.embed = (if sf then randRow :: zerosRow dims :: rows
                    else rows ++ [randRow, zerosRow dims]) ∧
      sameLens inst.embed = true ∧
      inst.vocabSize = inst.embed.length ∧
      (∃ r0 rest, inst.embed = r0 :: rest ∧ inst.embedDim = r0.length) ∧
      inst.requiresGrad = true ∧ inst.dropoutP = floatHalf ∧
      inst.trainState = true ∧ inst.kwargs = [] := by
  unfold fromPretrainedCore at h
  cases hrv : readVectors content with
  | error e =>
    rw [hrv] at h
    cases h
  | ok pr =>
    obtain ⟨toks, rows⟩ := pr
    rw [hrv] at h
    simp only at h
    cases hst : npStack (if sf then randRow :: zerosRow dims :: rows
        else rows ++ [randRow, zerosRow dims]) with
    | error e =>
      rw [hst] at h
      cases h
    | ok table =>
      rw [hst] at h
      simp only at h
      obtain ⟨htab, hsame⟩ := npStack_ok_inv _ _ hst
      cases htab2 : table with
      | nil =>
        rw [htab2] at h
        simp only [Fasttext.init] at h
        cases h
      | cons r0 rest =>
        rw [htab2] at h htab
        simp only [Fasttext.init] at h
        injection h with h2
        injection h2 with hinst hvocab
        subst hinst
        subst hvocab
        refine ⟨toks, rows, rfl, rfl, rfl, htab, ?_, rfl, ⟨r0, rest, rfl, rfl⟩, rfl, rfl, rfl, rfl⟩
        show sameLens (r0 :: rest) = true
        rw [htab]
        exact hsame


/-- The core of `from_pretrained` never raises a ValueError: after
validation its failures are parse, ragged-array, or index errors. -/
theorem fromPretrainedCore_no_value (dims : Nat) (sp : List Chars) (sf : Bool)
    (content : Chars) (randRow : List Chars) (msg : String) :
    fromPretrainedCore dims sp sf content randRow ≠ .error (.valueError msg) := by
  intro h
  unfold fromPretrainedCore at h
  cases hrv : readVectors content with
  | error e =>
    rw [hrv] at h
    injection h with h2
    have := readVectors_error_kind content e hrv
    rw [this] at h2
    cases h2
  | ok pr =>
    obtain ⟨toks, rows⟩ := pr
    rw [hrv] at h
    simp only at h
    cases hst : npStack (if sf then randRow :: zerosRow dims :: rows
        else rows ++ [randRow, zerosRow dims]) with
    | error e =>
      rw [hst] at h
      injection h with h2
      unfold npStack at hst
      by_cases hs : sameLens (if sf then randRow :: zerosRow dims :: rows
          else rows ++ [randRow, zerosRow dims]) = true
      · rw [if_pos hs] at hst
        cases hst
      · rw [if_neg hs] at hst
        injection hst with h3
        rw [← h3] at h2
        cases h2
    | ok table =>
      rw [hst] at h
      simp only at h
      cases htab : table with
      | nil =>
        rw [htab] at h
        simp only [Fasttext.init] at h
        cases h
      | cons r0 rest =>
        rw [htab] at h
        simp only [Fasttext.init] at h
        cases h

/-- Gathering in-range ids returns the selected rows in order. -/
theorem opsGather_ok (table : List (List Chars)) (ids : List Nat)
    (h : ∀ i ∈ ids, i < table.length) :
    opsGather table ids = .ok (ids.map (fun i => table.getD i [])) := by
  unfold opsGather
  apply mapE_ok
  intro i hi
  have hlt := h i hi
  have hsome : table[i]? = some table[i] := List.getElem?_eq_getElem hlt
  rw [hsome]
  have hgd : table.getD i [] = table[i] := by
    rw [List.getD_eq_getElem?_getD, hsome]
    rfl
  rw [hgd]


/-! ### Claim theorems -/

/-- C4: for every integer id array of shape `S` whose entries are all in
`[0, vocab_size)`, the lookup (`construct` before the dropout transform)
returns an array of shape `S ++ [embed_dim]` whose flat data is each
scalar id replaced by the corresponding table row. -/
theorem c4_lookup_shape (m : Fasttext) (ids : NDArr Nat)
    (hwf : ids.data.length = ids.shape.prod)
    (hv : m.vocabSize = m.embed.length)
    (hrows : ∀ r ∈ m.embed, r.length = m.embedDim)
    (hin : ∀ i ∈ ids.data, i < m.vocabSize) :
    m.constructPre ids = .ok ⟨ids.shape ++ [m.embedDim],
      (ids.data.map (fun i => m.embed.getD i [])).flatten⟩ := by
  unfold Fasttext.constructPre
  rw [opsGather_ok m.embed ids.data (fun i hi => hv ▸ hin i hi)]
  simp only
  unfold opsReshape
  have hcond : (ids.shape ++ [m.embedDim]).prod =
      ((ids.data.map (fun i => m.embed.getD i [])).flatten).length := by
    rw [List.prod_append, List.prod_cons, List.prod_nil, mul_one]
    rw [List.length_flatten, List.map_map]
    have hlens : List.map (List.length ∘ fun i => m.embed.getD i []) ids.data =
        List.map (Function.const Nat m.embedDim) ids.data := by
      apply List.map_congr_left
      intro i hi
      simp only [Function.comp_apply, Function.const_apply]
      have hlt : i < m.embed.length := hv ▸ hin i hi
      rw [List.getD_eq_getElem?_getD, List.getElem?_eq_getElem hlt]
      exact hrows _ (List.getElem_mem hlt)
    rw [hlens, List.map_const, List.sum_replicate, smul_eq_mul, ← hwf]
  rw [if_pos hcond]

/-- Witness for C4 on a concrete 2x2 id array over a 2-token table. -/
theorem c4_lookup_shape_witness :
    instC1w.constructPre ⟨[2, 2], [0, 1, 1, 0]⟩ = .ok ⟨[2, 2] ++ [instC1w.embedDim],
      (([0, 1, 1, 0] : List Nat).map (fun i => instC1w.embed.getD i [])).flatten⟩ :=
  c4_lookup_shape instC1w ⟨[2, 2], [0, 1, 1, 0]⟩ (by decide) (by decide)
    (by decide) (by decide)

/-- C5: for every vocabulary of size at least one, looking up an id
outside `[0, vocab_size)` raises the index error, which propagates to
the caller through `construct`; no clamp or wrap occurs. -/
theorem c5_lookup_oob (m : Fasttext) (ids : NDArr Nat) (i : Nat)
    (hvs : 1 ≤ m.vocabSize)
    (hv : m.vocabSize = m.embed.length)
    (hi : i ∈ ids.data) (hout : m.vocabSize ≤ i) :
    m.construct ids = .error .indexError := by
  have hg : opsGather m.embed ids.data = .error .indexError := by
    unfold opsGather
    apply mapE_error_of_mem _ _ i
    · exact hi
    · intro b hb
      have hnone : m.embed[i]? = none := List.getElem?_eq_none (by omega)
      simp only [hnone] at hb
      cases hb
    · intro x e0 hx
      cases hx2 : m.embed[x]? with
      | none =>
        simp only [hx2] at hx
        injection hx with h3
        exact h3.symm
      | some r =>
        simp only [hx2] at hx
        cases hx
  unfold Fasttext.construct Fasttext.constructPre
  rw [hg]

/-- Witness for C5: id 5 over a 2-token table raises the index error. -/
theorem c5_lookup_oob_witness :
    instC1w.construct ⟨[1], [5]⟩ = .error .indexError :=
  c5_lookup_oob instC1w ⟨[1], [5]⟩ 5 (by decide) (by decide) (by decide) (by decide)


/-- A successful `from_pretrained` passed validation and is its core. -/
theorem fromPretrained_ok_inv (name : String) (dims : Nat) (sp : List Chars)
    (sf : Bool) (content : Chars) (randRow : List Chars) (inst : Fasttext) (vocab : Vocab)
    (h : (fromPretrained name dims sp sf content randRow).2 = .ok (inst, vocab)) :
    fromPretrainedCore dims sp sf content randRow = .ok (inst, vocab) := by
  unfold fromPretrained at h
  by_cases hn : name ∈ urlsKeys
  · rw [if_pos hn] at h
    by_cases hd2 : dims ∈ dimsList
    · rw [if_pos hd2] at h
      exact h
    · rw [if_neg hd2] at h
      cases h
  · rw [if_neg hn] at h
    cases h

/-- C10: every instance returned by `from_pretrained` has
`requires_grad = True`, `dropout = 0.5`, and the default
`train_state = True`, with no passthrough options, whatever the
arguments were. -/
theorem c10_hyperparams (name : String) (dims : Nat) (sp : List Chars) (sf : Bool)
    (content : Chars) (randRow : List Chars) (inst : Fasttext) (vocab : Vocab)
    (h : (fromPretrained name dims sp sf content randRow).2 = .ok (inst, vocab)) :
    inst.requiresGrad = true ∧ inst.dropoutP = floatHalf ∧
    inst.trainState = true ∧ inst.kwargs = [] := by
  obtain ⟨toks, rows, _, _, _, _, _, _, _, hrg, hdp, hts, hkw⟩ :=
    fromPretrainedCore_inv dims sp sf content randRow inst vocab
      (fromPretrained_ok_inv name dims sp sf content randRow inst vocab h)
  exact ⟨hrg, hdp, hts, hkw⟩

/-- Witness for C10 on a concrete successful construction. -/
theorem c10_hyperparams_witness :
    instPre.requiresGrad = true ∧ instPre.dropoutP = floatHalf ∧
    instPre.trainState = true ∧ instPre.kwargs = [] :=
  c10_hyperparams "1M" 300 [['p'], ['u']] true hdrOnly rRow300 instPre vocabPre (by decide)

/-- `Vocab.from_list` with `special_first = True` prepends the special
tokens. -/
theorem Vocab.fromList_true (w sp : List Chars) : Vocab.fromList w sp true = ⟨sp ++ w⟩ := rfl

/-- `Vocab.from_list` with `special_first = False` appends the special
tokens. -/
theorem Vocab.fromList_false (w sp : List Chars) : Vocab.fromList w sp false = ⟨w ++ sp⟩ := rfl

/-- C2: the vocabulary built by `from_pretrained` puts the two special
tokens at ids 0 and 1 with the file tokens on the following contiguous
ids when `special_first` is true, and puts the file tokens at ids
`0..N-1` with the special tokens on the final two ids when it is false. -/
theorem c2_vocab_layout (name : String) (dims : Nat) (sp0 sp1 : Chars) (sf : Bool)
    (content : Chars) (randRow : List Chars) (inst : Fasttext) (vocab : Vocab)
    (toks : List Chars) (rows : List (List Chars))
    (h : (fromPretrained name dims [sp0, sp1] sf content randRow).2 = .ok (inst, vocab))
    (hrv : readVectors content = .ok (toks, rows)) :
    (sf = true → vocab.tokens[0]? = some sp0 ∧ vocab.tokens[1]? = some sp1 ∧
      ∀ j, vocab.tokens[j + 2]? = toks[j]?) ∧
    (sf = false → (∀ j, j < toks.length → vocab.tokens[j]? = toks[j]?) ∧
      vocab.tokens[toks.length]? = some sp0 ∧ vocab.tokens[toks.length + 1]? = some sp1) := by
  obtain ⟨toks2, rows2, hrv2, hvoc, _⟩ :=
    fromPretrainedCore_inv dims [sp0, sp1] sf content randRow inst vocab
      (fromPretrained_ok_inv name dims [sp0, sp1] sf content randRow inst vocab h)
  rw [hrv] at hrv2
  injection hrv2 with hp
  injection hp with ht hr
  subst ht
  constructor
  · intro hsf
    subst hsf
    rw [hvoc, Vocab.fromList_true]
    simp only [List.cons_append, List.nil_append]
    refine ⟨List.getElem?_cons_zero, ?_, ?_⟩
    · show (sp0 :: sp1 :: toks)[0 + 1]? = some sp1
      rw [List.getElem?_cons_succ]
      exact List.getElem?_cons_zero
    · intro j
      show (sp0 :: sp1 :: toks)[j + 1 + 1]? = toks[j]?
      rw [List.getElem?_cons_succ, List.getElem?_cons_succ]
  · intro hsf
    subst hsf
    rw [hvoc, Vocab.fromList_false]
    refine ⟨?_, ?_, ?_⟩
    · intro j hj
      show (toks ++ [sp0, sp1])[j]? = toks[j]?
      exact List.getElem?_append_left hj
    · show (toks ++ [sp0, sp1])[toks.length]? = some sp0
      rw [List.getElem?_append_right (Nat.le_refl _)]
      simp
    · show (toks ++ [sp0, sp1])[toks.length + 1]? = some sp1
      rw [List.getElem?_append_right (by omega)]
      have hix : toks.length + 1 - toks.length = 1 := by omega
      rw [hix]
      rfl

/-- Witness for C2 on a one-token file with `special_first = true`. -/
theorem c2_vocab_layout_witness :
    (true = true → vocabOneTok.tokens[0]? = some ['p'] ∧ vocabOneTok.tokens[1]? = some ['u'] ∧
      ∀ j, vocabOneTok.tokens[j + 2]? = [['c', 'a', 't']][j]?) ∧
    (true = false → (∀ j, j < List.length [['c', 'a', 't']] →
        vocabOneTok.tokens[j]? = [['c', 'a', 't']][j]?) ∧
      vocabOneTok.tokens[List.length [['c', 'a', 't']]]? = some ['p'] ∧
      vocabOneTok.tokens[List.length [['c', 'a', 't']] + 1]? = some ['u']) :=
  c2_vocab_layout "1M" 300 ['p'] ['u'] true oneTokContent rRow300 instOneTok vocabOneTok
    [['c', 'a', 't']] [List.replicate 300 [('1' : Char)]] (by decide) (by decide)


/-- C3 counterexample: with the default special tokens
`("<pad>", "<unk>")` and `special_first = true`, a successful
construction puts the random row at the id of `<pad>` and the zero row
at the id of `<unk>` — the opposite pairing of the claim, which says the
random row belongs to the unknown token and the zero row to the padding
token. -/
theorem c3_counterexample :
    (fromPretrained "1M" 300 ["<pad>".data, "<unk>".data] true hdrOnly rRow300).2 =
      .ok (instC3cx, ⟨["<pad>".data, "<unk>".data]⟩) ∧
    instC3cx.wordVocab.tokens[1]? = some "<unk>".data ∧
    instC3cx.embed[1]? = some (zerosRow 300) ∧
    instC3cx.wordVocab.tokens[0]? = some "<pad>".data ∧
    instC3cx.embed[0]? = some rRow300 ∧
    rRow300 ≠ zerosRow 300 := by
  refine ⟨by decide, by decide, by decide, by decide, by decide, by decide⟩

/-- C3 (amended): at construction by `from_pretrained`, for both values
of `special_first`, the synthetic random row is the table row of the
FIRST special token of the pair (the padding token under the default
order) and the all-zero row is the table row of the second (the unknown
token), both inserted at the same position, front or back, as the
special tokens occupy in the vocabulary. -/
theorem c3_special_rows (name : String) (dims : Nat) (sp0 sp1 : Chars) (sf : Bool)
    (content : Chars) (randRow : List Chars) (inst : Fasttext) (vocab : Vocab)
    (toks : List Chars) (rows : List (List Chars))
    (h : (fromPretrained name dims [sp0, sp1] sf content randRow).2 = .ok (inst, vocab))
    (hrv : readVectors content = .ok (toks, rows)) :
    inst.embed[if sf then 0 else toks.length]? = some randRow ∧
    inst.embed[(if sf then 0 else toks.length) + 1]? = some (zerosRow dims) ∧
    vocab.tokens[if sf then 0 else toks.length]? = some sp0 ∧
    vocab.tokens[(if sf then 0 else toks.length) + 1]? = some sp1 := by
  obtain ⟨toks2, rows2, hrv2, hvoc, _, hemb, _⟩ :=
    fromPretrainedCore_inv dims [sp0, sp1] sf content randRow inst vocab
      (fromPretrained_ok_inv name dims [sp0, sp1] sf content randRow inst vocab h)
  rw [hrv] at hrv2
  injection hrv2 with hp
  injection hp with ht hr
  subst ht
  subst hr
  have hlen := readVectors_lengths content toks rows hrv
  cases sf with
  | true =>
    simp only [if_pos rfl] at hemb ⊢
    rw [hemb, hvoc, Vocab.fromList_true]
    simp only [List.cons_append, List.nil_append]
    refine ⟨List.getElem?_cons_zero, ?_, List.getElem?_cons_zero, ?_⟩
    · show (randRow :: zerosRow dims :: rows)[0 + 1]? = some (zerosRow dims)
      rw [List.getElem?_cons_succ]
      exact List.getElem?_cons_zero
    · show (sp0 :: sp1 :: toks)[0 + 1]? = some sp1
      rw [List.getElem?_cons_succ]
      exact List.getElem?_cons_zero
  | false =>
    simp only [Bool.false_eq_true, if_false] at hemb ⊢
    rw [hemb, hvoc, Vocab.fromList_false]
    refine ⟨?_, ?_, ?_, ?_⟩
    · rw [show toks.length = rows.length from hlen]
      rw [List.getElem?_append_right (Nat.le_refl _)]
      simp
    · rw [show toks.length = rows.length from hlen]
      rw [List.getElem?_append_right (by omega)]
      have hix : rows.length + 1 - rows.length = 1 := by omega
      rw [hix]
      simp
    · show (toks ++ [sp0, sp1])[toks.length]? = some sp0
      rw [List.getElem?_append_right (Nat.le_refl _)]
      simp
    · show (toks ++ [sp0, sp1])[toks.length + 1]? = some sp1
      rw [List.getElem?_append_right (by omega)]
      have hix : toks.length + 1 - toks.length = 1 := by omega
      rw [hix]
      simp

/-- Witness for the amended C3: a header-only file with
`special_first = false` puts the random row and `p` at position 0 and
the zero row and `u` at position 1. -/
theorem c3_special_rows_witness :
    instPre.embed[if false then 0 else List.length ([] : List Chars)]? = some rRow300 ∧
    instPre.embed[(if false then 0 else List.length ([] : List Chars)) + 1]? =
      some (zerosRow 300) ∧
    vocabPre.tokens[if false then 0 else List.length ([] : List Chars)]? = some ['p'] ∧
    vocabPre.tokens[(if false then 0 else List.length ([] : List Chars)) + 1]? = some ['u'] :=
  c3_special_rows "1M" 300 ['p'] ['u'] false hdrOnly rRow300 instPre vocabPre [] []
    (by decide) (by decide)


/-- C6: an unsupported source name or dimension raises a ValueError (the
name is checked first) with an empty event trace — no filesystem or
network I/O happens — while supported arguments pass validation: the
download and read happen and no ValueError can be raised. -/
theorem c6_validation (name : String) (dims : Nat) (sp : List Chars) (sf : Bool)
    (content : Chars) (randRow : List Chars) :
    ((name ∉ urlsKeys ∨ dims ∉ dimsList) →
      (fromPretrained name dims sp sf content randRow).1 = [] ∧
      ∃ msg, (fromPretrained name dims sp sf content randRow).2 = .error (.valueError msg)) ∧
    (name ∈ urlsKeys → dims ∈ dimsList →
      (fromPretrained name dims sp sf content randRow).1 = [Ev.download, Ev.readFile] ∧
      ∀ msg, (fromPretrained name dims sp sf content randRow).2 ≠ .error (.valueError msg)) := by
  unfold fromPretrained
  by_cases hn : name ∈ urlsKeys
  · by_cases hd2 : dims ∈ dimsList
    · rw [if_pos hn, if_pos hd2]
      constructor
      · intro hbad
        rcases hbad with h1 | h1
        · exact absurd hn h1
        · exact absurd hd2 h1
      · intro _ _
        exact ⟨rfl, fun msg => fromPretrainedCore_no_value dims sp sf content randRow msg⟩
    · rw [if_pos hn, if_neg hd2]
      constructor
      · intro _
        exact ⟨rfl, _, rfl⟩
      · intro _ hd3
        exact absurd hd3 hd2
  · rw [if_neg hn]
    constructor
    · intro _
      exact ⟨rfl, _, rfl⟩
    · intro hn2 _
      exact absurd hn2 hn

/-- Witness for C6: the unsupported name `zzz` fails with an empty
trace; the supported pair `1M`, 300 passes validation. -/
theorem c6_validation_witness :
    ((fromPretrained "zzz" 300 [['p'], ['u']] true hdrOnly rRow300).1 = [] ∧
      ∃ msg, (fromPretrained "zzz" 300 [['p'], ['u']] true hdrOnly rRow300).2 =
        .error (.valueError msg)) ∧
    ((fromPretrained "1M" 300 [['p'], ['u']] true hdrOnly rRow300).1 =
        [Ev.download, Ev.readFile] ∧
      ∀ msg, (fromPretrained "1M" 300 [['p'], ['u']] true hdrOnly rRow300).2 ≠
        .error (.valueError msg)) :=
  ⟨(c6_validation "zzz" 300 [['p'], ['u']] true hdrOnly rRow300).1 (Or.inl (by decide)),
   (c6_validation "1M" 300 [['p'], ['u']] true hdrOnly rRow300).2 (by decide) (by decide)⟩


/-- C7 counterexample: the file `c7content` has the malformed data line
`dog 0.3 0.4 junk` with a non-numeric field in its vector part; instead
of a fatal parse error, the reader silently drops `junk` and the load
succeeds with a full 2-by-2 table. -/
theorem c7_counterexample :
    (pyLines c7content).drop 1 = ["cat 0.1 0.2\n".data, "dog 0.3 0.4 junk\n".data] ∧
    parseLine "dog 0.3 0.4 junk\n".data =
      .ok ("dog".data, [['0', '.', '3'], ['0', '.', '4']]) ∧
    Fasttext.load ⟨some hyperW, some c7content⟩ "f" = .ok instC7cx := by
  refine ⟨by decide, by decide, by decide⟩

/-- C7 (amended): a data line that does not split into a token and a
nonempty remainder aborts the whole load with the parse error, and a
file whose parsed rows have differing float counts aborts the load at
table assembly with the ragged-array error; in both cases no partial
table is returned.  A line whose non-numeric junk follows a float prefix
of the same length as the other rows is, however, silently accepted. -/
theorem c7_malformed_abort (content : Chars) (l : Chars) (toks : List Chars)
    (rows : List (List Chars)) (hyper : Hyper) (folder : String) :
    (l ∈ (pyLines content).drop 1 → pySplit1 l = none →
      Fasttext.load ⟨some hyper, some content⟩ folder = .error .parseError) ∧
    (readVectors content = .ok (toks, rows) → sameLens rows = false →
      Fasttext.load ⟨some hyper, some content⟩ folder = .error .raggedError) := by
  constructor
  · intro hl hbad
    have hpe : parseLine l = .error .parseError := by
      unfold parseLine
      rw [hbad]
    have hm : mapE parseLine ((pyLines content).drop 1) = .error .parseError := by
      apply mapE_error_of_mem _ _ l
      · exact hl
      · intro b hb
        rw [hpe] at hb
        cases hb
      · exact fun x e0 hx => parseLine_error_kind x e0 hx
    have hrv : readVectors content = .error .parseError := by
      unfold readVectors
      rw [hm]
    unfold Fasttext.load
    simp only
    rw [hrv]
  · intro hrv hrag
    unfold Fasttext.load
    simp only
    rw [hrv]
    simp only
    unfold npStack
    rw [if_neg (by rw [hrag]; exact Bool.false_ne_true)]

/-- Witness for the amended C7: a line with no second field aborts with
the parse error, and two data lines of different float counts abort
with the ragged-array error. -/
theorem c7_malformed_abort_witness :
    Fasttext.load ⟨some hyperW, some c7badContent⟩ "f" = .error .parseError ∧
    Fasttext.load ⟨some hyperW, some c7raggedContent⟩ "f" = .error .raggedError :=
  ⟨(c7_malformed_abort c7badContent "tok\n".data [] [] hyperW "f").1 (by decide) (by decide),
   (c7_malformed_abort c7raggedContent [] ["a".data, "b".data] [[['1']], [['1'], ['2']]]
      hyperW "f").2 (by decide) (by decide)⟩


/-- C9: when the JSON file is absent, `load` fails with the assertion
message naming that file and the folder; when it is present but the
vector file is absent, the assertion names the vector file and the
folder; when both are present no assertion error can be raised and any
failure comes from the later stages. -/
theorem c9_missing_files (f : SavedFolder) (folder : String) :
    (f.jsonFile = none →
      Fasttext.load f folder = .error (.assertError (missingMsg JSON_FILENAME folder))) ∧
    (f.jsonFile ≠ none → f.embedFile = none →
      Fasttext.load f folder = .error (.assertError (missingMsg EMBED_FILENAME folder))) ∧
    (f.jsonFile ≠ none → f.embedFile ≠ none →
      ∀ msg, Fasttext.load f folder ≠ .error (.assertError msg)) := by
  obtain ⟨j, e⟩ := f
  refine ⟨?_, ?_, ?_⟩
  · intro hj
    simp only at hj
    subst hj
    rfl
  · intro hj he
    simp only at hj he
    subst he
    cases j with
    | none => exact absurd rfl hj
    | some hy => rfl
  · intro hj he msg hcontra
    simp only at hj he
    cases j with
    | none => exact absurd rfl hj
    | some hy =>
      cases e with
      | none => exact absurd rfl he
      | some content =>
        unfold Fasttext.load at hcontra
        simp only at hcontra
        cases hrv : readVectors content with
        | error er =>
          rw [hrv] at hcontra
          injection hcontra with h2
          have := readVectors_error_kind content er hrv
          rw [this] at h2
          cases h2
        | ok pr =>
          obtain ⟨toks, rows⟩ := pr
          rw [hrv] at hcontra
          simp only at hcontra
          cases hst : npStack rows with
          | error er =>
            rw [hst] at hcontra
            injection hcontra with h2
            unfold npStack at hst
            by_cases hs : sameLens rows = true
            · rw [if_pos hs] at hst
              cases hst
            · rw [if_neg hs] at hst
              injection hst with h3
              rw [← h3] at h2
              cases h2
          | ok table =>
            rw [hst] at hcontra
            simp only at hcontra
            cases htab : table with
            | nil =>
              rw [htab] at hcontra
              simp only [Fasttext.init] at hcontra
              cases hcontra
            | cons r0 rest =>
              rw [htab] at hcontra
              simp only [Fasttext.init] at hcontra
              cases hcontra

/-- Witness for C9 on concrete folders: both missing-file errors and a
complete folder that raises no assertion error. -/
theorem c9_missing_files_witness :
    Fasttext.load ⟨none, none⟩ "f" =
      .error (.assertError (missingMsg JSON_FILENAME "f")) ∧
    Fasttext.load ⟨some hyperW, none⟩ "f" =
      .error (.assertError (missingMsg EMBED_FILENAME "f")) ∧
    ∀ msg, Fasttext.load ⟨some hyperW, some c7content⟩ "f" ≠
      .error (.assertError msg) :=
  ⟨(c9_missing_files ⟨none, none⟩ "f").1 rfl,
   (c9_missing_files ⟨some hyperW, none⟩ "f").2.1 (by simp) rfl,
   (c9_missing_files ⟨some hyperW, some c7content⟩ "f").2.2 (by simp) (by simp)⟩


/-- C8: when the header text fits the 30-character placeholder, the
saved vector file is exactly one first line made of the header text
immediately followed by the remaining placeholder spaces and the
newline, then one line per vocabulary entry in id order, each line being
the token, a space, and the space-joined stringified row values. -/
theorem c8_saved_format (m : Fasttext)
    (hv : m.vocabSize = m.wordVocab.tokens.length)
    (he : m.vocabSize = m.embed.length)
    (htok : ∀ t ∈ m.wordVocab.tokens, ∀ c ∈ t, isWS c = false)
    (hval : ∀ r ∈ m.embed, ∀ v ∈ r, isNumeral v = true)
    (hlen : (headerOf m.vocabSize m.embedDim).length ≤ 30) :
    ∃ sf content, m.save = .ok sf ∧ sf.embedFile = some content ∧
      pyLines content = (headerOf m.vocabSize m.embedDim ++
          List.replicate (30 - (headerOf m.vocabSize m.embedDim).length) ' ' ++ ['\n']) ::
        (m.wordVocab.tokens.zip m.embed).map (fun p => dataLineOf p.1 p.2) := by
  have hsave := save_ok m hv he
  refine ⟨_, _, hsave, rfl, ?_⟩
  rw [overwrite_short _ _ hlen]
  have hinner : (m.wordVocab.tokens.zip m.embed).map (fun p => dataLineOf p.1 p.2) =
      ((m.wordVocab.tokens.zip m.embed).map (fun p => p.1 ++ ' ' :: joinSp p.2)).map
        (fun l => l ++ ['\n']) := by
    rw [List.map_map]
    apply List.map_congr_left
    intro p hp
    simp [dataLineOf]
  have hnl1 : ('\n' : Char) ∉ headerOf m.vocabSize m.embedDim ++
      List.replicate (30 - (headerOf m.vocabSize m.embedDim).length) ' ' := by
    intro hc
    rcases List.mem_append.mp hc with h1 | h1
    · exact headerOf_no_nl _ _ h1
    · have := List.eq_of_mem_replicate h1
      simp at this
  have hnl2 : ∀ l ∈ (m.wordVocab.tokens.zip m.embed).map (fun p => p.1 ++ ' ' :: joinSp p.2),
      ('\n' : Char) ∉ l := by
    intro l hl
    rcases List.mem_map.mp hl with ⟨p, hp, hpe⟩
    obtain ⟨a, b⟩ := p
    obtain ⟨ha, hb⟩ := List.of_mem_zip hp
    simp only at hpe
    intro hc
    rw [← hpe] at hc
    rcases List.mem_append.mp hc with h1 | h1
    · have := htok a ha _ h1
      simp [isWS] at this
    · rcases List.mem_cons.mp h1 with h2 | h2
      · simp at h2
      · rcases mem_joinSp _ _ h2 with h3 | ⟨v, hv1, hv2⟩
        · simp at h3
        · have := numeral_not_ws v (hval b hb v hv1) _ hv2
          simp [isWS] at this
  rw [hinner]
  rw [pyLines_header _ _ hnl1 hnl2]

/-- Witness for C8 on a concrete two-token instance: header `2 2`. -/
theorem c8_saved_format_witness :
    ∃ sf content, instC1w.save = .ok sf ∧ sf.embedFile = some content ∧
      pyLines content = (headerOf instC1w.vocabSize instC1w.embedDim ++
          List.replicate (30 - (headerOf instC1w.vocabSize instC1w.embedDim).length) ' ' ++
          ['\n']) ::
        (instC1w.wordVocab.tokens.zip instC1w.embed).map (fun p => dataLineOf p.1 p.2) :=
  c8_saved_format instC1w (by decide) (by decide) (by decide) (by decide) (by decide)

end FTE
